import Mathlib

/-!
Verification of the sequence-classification pipeline (IMDB sentiment, LSTM).

The repository is a notebook that configures and calls an external
deep-learning library: dataset loading, sequence padding, model assembly,
training and evaluation are library calls.  The components below are
shallow embeddings of those operations, modelled from the specification
(the library code itself is not part of the repository), together with an
embedding of the notebook's own glue (the pipeline wiring, which is in the
repository source).
-/

/-- Modelled from the spec: `SequencePreprocessor.normalize(sequence, L)`,
the repository's call `sequence.pad_sequences(X, maxlen=L)` whose
implementation is in the external library.  If the sequence is longer than
`maxlen`, the oldest (leading) tokens are dropped, keeping the trailing
`maxlen`; if shorter, padding sentinels `0` are prepended; if equal, the
sequence is returned unchanged. -/
def pad_sequences (maxlen : ℕ) (s : List ℕ) : List ℕ :=
  if maxlen ≤ s.length then s.drop (s.length - maxlen)
  else List.replicate (maxlen - s.length) 0 ++ s

lemma pad_sequences_length (maxlen : ℕ) (s : List ℕ) :
    (pad_sequences maxlen s).length = maxlen := by
  unfold pad_sequences
  split <;> simp <;> omega

lemma pad_sequences_of_length_le (maxlen : ℕ) (s : List ℕ)
    (h : maxlen ≤ s.length) :
    pad_sequences maxlen s = s.drop (s.length - maxlen) := by
  simp [pad_sequences, h]

lemma pad_sequences_of_length_eq (maxlen : ℕ) (s : List ℕ)
    (h : s.length = maxlen) : pad_sequences maxlen s = s := by
  simp [pad_sequences, h.ge, h]

/-- C1: for every sequence `s` longer than `L`, `normalize(s, L)` has length
`L` and is the final segment of `s` (the dropped part is the leading
`length s - L` tokens, so relative order is preserved); in particular
`normalize([1,2,3,4,5], 4) = [2,3,4,5]`. -/
theorem normalize_truncate_keeps_last (s : List ℕ) (L : ℕ) (h : L < s.length) :
    (pad_sequences L s).length = L ∧
    s.take (s.length - L) ++ pad_sequences L s = s ∧
    pad_sequences 4 [1, 2, 3, 4, 5] = [2, 3, 4, 5] := by
  refine ⟨pad_sequences_length L s, ?_, by decide⟩
  rw [pad_sequences_of_length_le L s h.le]
  exact List.take_append_drop _ s

theorem normalize_truncate_keeps_last_witness :
    4 < ([1, 2, 3, 4, 5] : List ℕ).length ∧
    ((pad_sequences 4 [1, 2, 3, 4, 5]).length = 4 ∧
      ([1, 2, 3, 4, 5] : List ℕ).take (([1, 2, 3, 4, 5] : List ℕ).length - 4) ++
        pad_sequences 4 [1, 2, 3, 4, 5] = [1, 2, 3, 4, 5] ∧
      pad_sequences 4 [1, 2, 3, 4, 5] = [2, 3, 4, 5]) :=
  ⟨by decide, normalize_truncate_keeps_last [1, 2, 3, 4, 5] 4 (by decide)⟩

/-- C2: for every sequence `s` shorter than `L`, `normalize(s, L)` has length
exactly `L`, its first `L - length s` elements are the padding sentinel `0`,
and its last `length s` elements are `s`; in particular
`normalize([1,2,3], 4) = [0,1,2,3]` and `normalize([4,5], 4) = [0,0,4,5]`. -/
theorem normalize_pad_left (s : List ℕ) (L : ℕ) (h : s.length < L) :
    (pad_sequences L s).length = L ∧
    (pad_sequences L s).take (L - s.length) = List.replicate (L - s.length) 0 ∧
    (pad_sequences L s).drop (L - s.length) = s ∧
    pad_sequences 4 [1, 2, 3] = [0, 1, 2, 3] ∧
    pad_sequences 4 [4, 5] = [0, 0, 4, 5] := by
  refine ⟨pad_sequences_length L s, ?_, ?_, by decide, by decide⟩ <;>
    simp [pad_sequences, h, Nat.not_le.mpr h, List.take_append_of_le_length,
      List.drop_append_of_le_length]

theorem normalize_pad_left_witness :
    ([1, 2, 3] : List ℕ).length < 4 ∧
    ((pad_sequences 4 [1, 2, 3]).length = 4 ∧
      (pad_sequences 4 [1, 2, 3]).take (4 - ([1, 2, 3] : List ℕ).length) =
        List.replicate (4 - ([1, 2, 3] : List ℕ).length) 0 ∧
      (pad_sequences 4 [1, 2, 3]).drop (4 - ([1, 2, 3] : List ℕ).length) = [1, 2, 3] ∧
      pad_sequences 4 [1, 2, 3] = [0, 1, 2, 3] ∧
      pad_sequences 4 [4, 5] = [0, 0, 4, 5]) :=
  ⟨by decide, normalize_pad_left [1, 2, 3] 4 (by decide)⟩

/-- C3: for every sequence `s` and positive `L`, `normalize(s, L)` has length
exactly `L`; a sequence already of length `L` is returned unchanged; and
`normalize` is idempotent. -/
theorem normalize_length_invariant (s : List ℕ) (L : ℕ) (h : 0 < L) :
    (pad_sequences L s).length = L ∧
    (s.length = L → pad_sequences L s = s) ∧
    pad_sequences L (pad_sequences L s) = pad_sequences L s := by
  refine ⟨pad_sequences_length L s, fun hs => pad_sequences_of_length_eq L s hs, ?_⟩
  exact pad_sequences_of_length_eq L _ (pad_sequences_length L s)

theorem normalize_length_invariant_witness :
    (0 : ℕ) < 2 ∧
    ((pad_sequences 2 [7, 8]).length = 2 ∧
      (([7, 8] : List ℕ).length = 2 → pad_sequences 2 [7, 8] = [7, 8]) ∧
      pad_sequences 2 (pad_sequences 2 [7, 8]) = pad_sequences 2 [7, 8]) :=
  ⟨by decide, normalize_length_invariant [7, 8] 2 (by decide)⟩

/-- Modelled from the spec: a trained model.  The learned parameters are an
explicit field (mutated only by training); the forward pass with dropout
disabled — embedding lookup, optional convolution and pooling, recurrent
stage, affine-plus-sigmoid output — is delegated to the external numerical
library and appears here as a function of the parameters and the input
sequence, returning the predicted probability of label 1. -/
structure Model where
  params : List ℚ
  forward : List ℚ → List ℕ → ℚ

/-- The model's prediction on one preprocessed sequence (dropout disabled). -/
def Model.predict (m : Model) (x : List ℕ) : ℚ := m.forward m.params x

/-- Thresholding a predicted probability at 0.5 to produce a predicted label. -/
def predictedLabel (p : ℚ) : Bool := decide (1 / 2 ≤ p)

/-- Modelled from the spec: `evaluate(model, test_pairs)` runs the model
forward (dropout disabled) over the pairs, thresholds at 0.5, compares with
the true label and returns the fraction of exact matches, together with the
model state after the call (evaluation performs no parameter update). -/
def Model.evaluate (m : Model) (pairs : List (List ℕ × Bool)) : ℚ × Model :=
  (((pairs.filter fun pr => predictedLabel (m.predict pr.1) == pr.2).length : ℚ) /
    (pairs.length : ℚ), m)

/-- C4: for every model and non-empty test set, `evaluate` returns a value in
`[0,1]` equal to (number of pairs whose thresholded prediction matches the
true label) divided by (total number of pairs), and leaves the model
unchanged. -/
theorem evaluate_accuracy_fraction (m : Model) (pairs : List (List ℕ × Bool))
    (h : pairs ≠ []) :
    0 ≤ (m.evaluate pairs).1 ∧ (m.evaluate pairs).1 ≤ 1 ∧
    (m.evaluate pairs).1 =
      ((pairs.filter fun pr => predictedLabel (m.predict pr.1) == pr.2).length : ℚ) /
        (pairs.length : ℚ) ∧
    (m.evaluate pairs).2 = m := by
  have hn : 0 < (pairs.length : ℚ) := by
    exact_mod_cast List.length_pos.mpr h
  have hle : ((pairs.filter fun pr => predictedLabel (m.predict pr.1) == pr.2).length : ℚ) ≤
      (pairs.length : ℚ) := by
    exact_mod_cast List.length_filter_le _ pairs
  refine ⟨div_nonneg (by positivity) hn.le, ?_, rfl, rfl⟩
  show _ / _ ≤ (1 : ℚ)
  rw [div_le_one hn]
  exact hle

def model0 : Model := ⟨[], fun _ _ => 1 / 2⟩

theorem evaluate_accuracy_fraction_witness :
    ([([0], true)] : List (List ℕ × Bool)) ≠ [] ∧
    (0 ≤ (model0.evaluate [([0], true)]).1 ∧ (model0.evaluate [([0], true)]).1 ≤ 1 ∧
      (model0.evaluate [([0], true)]).1 =
        (([([0], true)] : List (List ℕ × Bool)).filter
            (fun pr => predictedLabel (model0.predict pr.1) == pr.2)).length /
          (([([0], true)] : List (List ℕ × Bool)).length : ℚ) ∧
      (model0.evaluate [([0], true)]).2 = model0) :=
  ⟨by decide, evaluate_accuracy_fraction model0 [([0], true)] (by decide)⟩

/-- Modelled from the spec: the tagged stage descriptors of the declarative
layer stack — embedding (vocabulary `K`, width `D`), 1-D convolution
(`F` channels, kernel length), max pooling (factor), recurrent stage
(declared input width, hidden width `H`), dropout (probability), and the
affine-plus-sigmoid output stage. -/
inductive Stage where
  | embedding (K D : ℕ)
  | conv (F kernel : ℕ)
  | pooling (factor : ℕ)
  | recurrent (inW H : ℕ)
  | dropout (p : ℚ)
  | output
deriving DecidableEq

/-- Modelled from the spec: the error taxonomy raised at configuration time. -/
inductive ConfigurationError where
  | widthMismatch
  | nonPositiveSize
deriving DecidableEq

/-- Output feature width of a stage, given the incoming feature width. -/
def stageOutW : Stage → ℕ → ℕ
  | .embedding _ D, _ => D
  | .conv F _, _ => F
  | .pooling _, w => w
  | .recurrent _ H, _ => H
  | .dropout _, w => w
  | .output, _ => 1

/-- The input width a stage declares, when it declares one. -/
def stageDeclaredInW : Stage → Option ℕ
  | .recurrent inW _ => some inW
  | _ => none

/-- Whether every size parameter of the stage is positive. -/
def stageSizesPositive : Stage → Bool
  | .embedding K D => decide (0 < K) && decide (0 < D)
  | .conv F kernel => decide (0 < F) && decide (0 < kernel)
  | .pooling factor => decide (0 < factor)
  | .recurrent _ H => decide (0 < H)
  | .dropout _ => true
  | .output => true

/-- Modelled from the spec: a model configuration, the fixed sequence length
`L` together with the ordered layer stack. -/
structure Config where
  L : ℕ
  stages : List Stage
deriving DecidableEq

/-- Width-compatibility and positivity check over the stack, threading the
current feature width left to right. -/
def validateStages (w : ℕ) : List Stage → Except ConfigurationError ℕ
  | [] => .ok w
  | s :: rest =>
    if stageSizesPositive s then
      match stageDeclaredInW s with
      | some d => if d = w then validateStages (stageOutW s w) rest else .error .widthMismatch
      | none => validateStages (stageOutW s w) rest
    else .error .nonPositiveSize

/-- Modelled from the spec: constructing a configuration validates it before
any training computation begins — a mismatched declared input width or a
non-positive size parameter yields a `ConfigurationError`. -/
def validate (c : Config) : Except ConfigurationError Unit :=
  if 0 < c.L then (validateStages c.L c.stages).map fun _ => () else .error .nonPositiveSize

/-- Whether some stage of the stack declares an input width different from
the feature width the preceding stages produce, threading widths from `w`
left to right. -/
def stacksMismatch (w : ℕ) : List Stage → Bool
  | [] => false
  | s :: rest =>
    (match stageDeclaredInW s with
      | some d => decide (d ≠ w)
      | none => false) || stacksMismatch (stageOutW s w) rest

lemma validateStages_error_of_mismatch :
    ∀ (stages : List Stage) (w : ℕ), stacksMismatch w stages = true →
      ∃ e, validateStages w stages = .error e
  | [], w, hm => by simp [stacksMismatch] at hm
  | s :: rest, w, hm => by
    unfold validateStages
    cases hp : stageSizesPositive s with
    | false => exact ⟨.nonPositiveSize, by simp [hp]⟩
    | true =>
      simp only [hp, if_true]
      unfold stacksMismatch at hm
      cases hd : stageDeclaredInW s with
      | none =>
        rw [hd] at hm
        simp only [Bool.false_or] at hm
        exact validateStages_error_of_mismatch rest (stageOutW s w) hm
      | some d =>
        rw [hd] at hm
        by_cases hdw : d = w
        · simp only [hdw, ne_eq, not_true_eq_false, decide_False, Bool.false_or] at hm
          obtain ⟨e, he⟩ := validateStages_error_of_mismatch rest (stageOutW s w) hm
          exact ⟨e, by simp [hdw, he]⟩
        · exact ⟨.widthMismatch, by simp [hdw]⟩

lemma validateStages_error_of_nonpositive :
    ∀ (stages : List Stage) (w : ℕ), stages.all stageSizesPositive = false →
      ∃ e, validateStages w stages = .error e
  | [], w, hm => by simp at hm
  | s :: rest, w, hm => by
    unfold validateStages
    cases hp : stageSizesPositive s with
    | false => exact ⟨.nonPositiveSize, by simp [hp]⟩
    | true =>
      simp only [hp, if_true]
      rw [List.all_cons, hp, Bool.true_and] at hm
      cases hd : stageDeclaredInW s with
      | none => exact validateStages_error_of_nonpositive rest (stageOutW s w) hm
      | some d =>
        by_cases hdw : d = w
        · obtain ⟨e, he⟩ := validateStages_error_of_nonpositive rest (stageOutW s w) hm
          exact ⟨e, by simp [hdw, he]⟩
        · exact ⟨.widthMismatch, by simp [hdw]⟩

lemma stacksMismatch_append_embedding :
    ∀ (pre : List Stage) (w K D1 D2 H : ℕ) (rest : List Stage), D2 ≠ D1 →
      stacksMismatch w
        (pre ++ Stage.embedding K D1 :: Stage.recurrent D2 H :: rest) = true
  | [], w, K, D1, D2, H, rest, hD => by
    simp [stacksMismatch, stageDeclaredInW, stageOutW, hD]
  | s :: pre, w, K, D1, D2, H, rest, hD => by
    simp [stacksMismatch,
      stacksMismatch_append_embedding pre (stageOutW s w) K D1 D2 H rest hD]

lemma validate_error_of_invalid (c : Config)
    (h : c.L = 0 ∨ stacksMismatch c.L c.stages = true ∨
      c.stages.all stageSizesPositive = false) :
    ∃ e, validate c = .error e := by
  rcases Nat.eq_zero_or_pos c.L with hL | hL
  · exact ⟨.nonPositiveSize, by simp [validate, hL]⟩
  · rcases h with h | h | h
    · omega
    · obtain ⟨e, he⟩ := validateStages_error_of_mismatch c.stages c.L h
      exact ⟨e, by simp [validate, hL, he, Except.map]⟩
    · obtain ⟨e, he⟩ := validateStages_error_of_nonpositive c.stages c.L h
      exact ⟨e, by simp [validate, hL, he, Except.map]⟩

/-- C5: every configuration in which some stage's declared input width does
not match the width produced by the preceding stages, or in which the
sequence length `L` or any stage size parameter (`D`, `H`, `F`, ...) is
non-positive, is rejected with a `ConfigurationError` at construction time,
before any training computation; in particular, wherever in the stack an
embedding stage of output width `D1` feeds a recurrent stage declaring input
width `D2 ≠ D1`, construction fails with a `ConfigurationError`. -/
theorem config_invalid_rejected (c : Config)
    (h : c.L = 0 ∨ stacksMismatch c.L c.stages = true ∨
      c.stages.all stageSizesPositive = false) :
    (∃ e, validate c = .error e) ∧
    ∀ (L : ℕ) (pre : List Stage) (K D1 D2 H : ℕ) (rest : List Stage), D2 ≠ D1 →
      ∃ e, validate
        ⟨L, pre ++ Stage.embedding K D1 :: Stage.recurrent D2 H :: rest⟩ =
          .error e := by
  refine ⟨validate_error_of_invalid c h, fun L pre K D1 D2 H rest hD => ?_⟩
  exact validate_error_of_invalid _
    (Or.inr (Or.inl (stacksMismatch_append_embedding pre L K D1 D2 H rest hD)))

def badConfig : Config :=
  ⟨500, [Stage.embedding 5000 32, Stage.recurrent 64 100, Stage.output]⟩

theorem config_invalid_rejected_witness :
    (badConfig.L = 0 ∨ stacksMismatch badConfig.L badConfig.stages = true ∨
      badConfig.stages.all stageSizesPositive = false) ∧
    ((∃ e, validate badConfig = .error e) ∧
      ∀ (L : ℕ) (pre : List Stage) (K D1 D2 H : ℕ) (rest : List Stage), D2 ≠ D1 →
        ∃ e, validate
          ⟨L, pre ++ Stage.embedding K D1 :: Stage.recurrent D2 H :: rest⟩ =
            .error e) :=
  ⟨by decide, config_invalid_rejected badConfig (by decide)⟩

/-- Helper for `batches`: chunk the list into leading segments of `B`
elements, with an explicit fuel bound (the list length suffices, since each
step with positive `B` consumes at least one element). -/
def batchesGo (B : ℕ) : ℕ → List α → List (List α)
  | 0, _ => []
  | _, [] => []
  | fuel + 1, x :: xs => (x :: xs).take B :: batchesGo B fuel ((x :: xs).drop B)

/-- Modelled from the spec: the training controller partitions the training
pairs into consecutive batches of size `B`; the final batch may be smaller. -/
def batches (B : ℕ) (xs : List α) : List (List α) := batchesGo B xs.length xs

/-- One epoch: a left fold of the library's batch update over the batches. -/
def runBatches (step : Model → List (List ℕ × Bool) → Model) (B : ℕ)
    (pairs : List (List ℕ × Bool)) (m : Model) : Model :=
  (batches B pairs).foldl step m

/-- Modelled from the spec: `fit(model, train_pairs, epochs, batch_size)`
without validation data.  The per-batch parameter update (loss gradient and
adaptive optimizer) belongs to the external library and is the explicit
`step` argument; the controller itself is fixed-iteration, running exactly
the requested number of epochs. -/
def fit (step : Model → List (List ℕ × Bool) → Model) (m : Model)
    (pairs : List (List ℕ × Bool)) (B : ℕ) : ℕ → Model
  | 0 => m
  | e + 1 => runBatches step B pairs (fit step m pairs B e)

/-- Modelled from the spec: `fit` with `validation_data` supplied.  At the
end of each epoch the loss/accuracy on the validation pairs is computed with
no parameter update.  The result carries the trained model, the per-epoch
validation metrics, and the validation pairs as held after the call. -/
def fitWithVal (step : Model → List (List ℕ × Bool) → Model) (m : Model)
    (pairs valPairs : List (List ℕ × Bool)) (B : ℕ) :
    ℕ → Model × List ℚ × List (List ℕ × Bool)
  | 0 => (m, [], valPairs)
  | e + 1 =>
    let prev := fitWithVal step m pairs valPairs B e
    let m2 := runBatches step B pairs prev.1
    (m2, prev.2.1 ++ [(m2.evaluate valPairs).1], valPairs)

lemma fitWithVal_val_unchanged (step : Model → List (List ℕ × Bool) → Model)
    (m : Model) (pairs valPairs : List (List ℕ × Bool)) (B e : ℕ) :
    (fitWithVal step m pairs valPairs B e).2.2 = valPairs := by
  cases e <;> rfl

lemma fitWithVal_model_eq_fit (step : Model → List (List ℕ × Bool) → Model)
    (m : Model) (pairs valPairs : List (List ℕ × Bool)) (B : ℕ) :
    ∀ e, (fitWithVal step m pairs valPairs B e).1 = fit step m pairs B e
  | 0 => rfl
  | e + 1 => by
    simp [fitWithVal, fit, fitWithVal_model_eq_fit step m pairs valPairs B e]

lemma fitWithVal_metrics_length (step : Model → List (List ℕ × Bool) → Model)
    (m : Model) (pairs valPairs : List (List ℕ × Bool)) (B : ℕ) :
    ∀ e, (fitWithVal step m pairs valPairs B e).2.1.length = e
  | 0 => rfl
  | e + 1 => by
    simp [fitWithVal, fitWithVal_metrics_length step m pairs valPairs B e]

/-- C6: training for 0 epochs leaves the model (in particular every learned
parameter) identical to its value before the call, with or without
validation data. -/
theorem fit_zero_epochs_no_update (step : Model → List (List ℕ × Bool) → Model)
    (m : Model) (pairs valPairs : List (List ℕ × Bool)) (B : ℕ) :
    fit step m pairs B 0 = m ∧
    (fitWithVal step m pairs valPairs B 0).1 = m ∧
    (fit step m pairs B 0).params = m.params :=
  ⟨rfl, rfl, rfl⟩

/-- C7: training with validation data returns the validation pairs unchanged,
and the end-of-epoch validation computation performs no parameter update —
the trained model is the same as when no validation data is supplied at
all. -/
theorem fit_validation_frame (step : Model → List (List ℕ × Bool) → Model)
    (m : Model) (pairs valPairs : List (List ℕ × Bool)) (B e : ℕ) :
    (fitWithVal step m pairs valPairs B e).2.2 = valPairs ∧
    (fitWithVal step m pairs valPairs B e).1 = fit step m pairs B e :=
  ⟨fitWithVal_val_unchanged step m pairs valPairs B e,
    fitWithVal_model_eq_fit step m pairs valPairs B e⟩

lemma batchesGo_nil (B fuel : ℕ) : batchesGo B fuel ([] : List α) = [] := by
  cases fuel <;> rfl

lemma batchesGo_flatten (B : ℕ) (hB : 0 < B) :
    ∀ (fuel : ℕ) (xs : List α), xs.length ≤ fuel → (batchesGo B fuel xs).flatten = xs
  | _, [], _ => by simp [batchesGo_nil]
  | 0, x :: t, h => by simp at h
  | fuel + 1, x :: t, h => by
    have hlen : ((x :: t).drop B).length ≤ fuel := by
      simp only [List.length_drop, List.length_cons] at h ⊢
      omega
    simp [batchesGo, batchesGo_flatten B hB fuel ((x :: t).drop B) hlen,
      List.take_append_drop]

lemma batchesGo_ne_nil (B : ℕ) (hB : 0 < B) (fuel : ℕ) (xs : List α)
    (hx : xs ≠ []) (h : xs.length ≤ fuel) : batchesGo B fuel xs ≠ [] := by
  intro hnil
  have := batchesGo_flatten B hB fuel xs h
  rw [hnil] at this
  exact hx this.symm

lemma batchesGo_length (B : ℕ) (hB : 0 < B) :
    ∀ (fuel : ℕ) (xs : List α), xs.length ≤ fuel →
      (batchesGo B fuel xs).length = (xs.length + B - 1) / B
  | _, [], _ => by
    rw [batchesGo_nil]
    simp only [List.length_nil, Nat.zero_add]
    exact (Nat.div_eq_of_lt (by omega)).symm
  | 0, x :: t, h => by simp at h
  | fuel + 1, x :: t, h => by
    have hlen : ((x :: t).drop B).length ≤ fuel := by
      simp only [List.length_drop, List.length_cons] at h ⊢
      omega
    have ih := batchesGo_length B hB fuel ((x :: t).drop B) hlen
    rw [List.length_drop, List.length_cons] at ih
    simp only [batchesGo, List.length_cons, ih]
    rcases le_or_lt (t.length + 1) B with hc | hc
    · have h1 : t.length + 1 - B + B - 1 = B - 1 := by omega
      have h2 : (t.length + 1 + B - 1) / B = 1 :=
        Nat.div_eq_of_lt_le (by omega) (by omega)
      have h3 : (B - 1) / B = 0 := Nat.div_eq_of_lt (by omega)
      rw [h1, h2, h3]
    · have h1 : t.length + 1 - B + B - 1 = t.length := by omega
      have h2 : t.length + 1 + B - 1 = t.length + B := by omega
      rw [h1, h2, Nat.add_div_right _ hB]

lemma batchesGo_dropLast (B : ℕ) (hB : 0 < B) :
    ∀ (fuel : ℕ) (xs : List α), xs.length ≤ fuel →
      ∀ l ∈ (batchesGo B fuel xs).dropLast, l.length = B
  | _, [], _ => by simp [batchesGo_nil]
  | 0, x :: t, h => by simp at h
  | fuel + 1, x :: t, h => by
    have hlen : ((x :: t).drop B).length ≤ fuel := by
      simp only [List.length_drop, List.length_cons] at h ⊢
      omega
    simp only [batchesGo]
    rcases eq_or_ne ((x :: t).drop B) [] with hys | hys
    · rw [hys, batchesGo_nil]
      simp
    · obtain ⟨r, rs, hr⟩ :=
        List.exists_cons_of_ne_nil (batchesGo_ne_nil B hB fuel _ hys hlen)
      rw [hr, List.dropLast_cons₂]
      intro l hl
      rcases List.mem_cons.mp hl with hl | hl
      · have hBlt : B < t.length + 1 := by
          by_contra hge
          exact hys (List.drop_eq_nil_of_le (by simpa using Nat.le_of_not_lt hge))
        subst hl
        simp only [List.length_take, List.length_cons]
        omega
      · exact batchesGo_dropLast B hB fuel ((x :: t).drop B) hlen l (hr ▸ hl)

lemma batchesGo_getLast (B : ℕ) (hB : 0 < B) :
    ∀ (fuel : ℕ) (xs : List α), xs.length ≤ fuel → xs.length % B ≠ 0 →
      ∀ l, (batchesGo B fuel xs).getLast? = some l → l.length = xs.length % B
  | _, [], _, hm => by simp at hm
  | 0, x :: t, h, _ => by simp at h
  | fuel + 1, x :: t, h, hm => by
    have hlen : ((x :: t).drop B).length ≤ fuel := by
      simp only [List.length_drop, List.length_cons] at h ⊢
      omega
    intro l hl
    simp only [batchesGo] at hl
    rcases eq_or_ne ((x :: t).drop B) [] with hys | hys
    · rw [hys, batchesGo_nil] at hl
      have hle : t.length + 1 ≤ B := by
        have := List.drop_eq_nil_iff.mp hys
        simpa using this
      have hlt : t.length + 1 < B := by
        rcases Nat.lt_or_ge (t.length + 1) B with h1 | h1
        · exact h1
        · exfalso
          apply hm
          have heq : t.length + 1 = B := by omega
          simp [List.length_cons, heq, Nat.mod_self]
      simp only [List.getLast?_singleton, Option.some.injEq] at hl
      subst hl
      simp only [List.length_take, List.length_cons]
      rw [Nat.mod_eq_of_lt hlt]
      omega
    · obtain ⟨r, rs, hr⟩ :=
        List.exists_cons_of_ne_nil (batchesGo_ne_nil B hB fuel _ hys hlen)
      rw [hr, List.getLast?_cons_cons] at hl
      have hBle : B ≤ t.length + 1 := by
        by_contra hge
        exact hys (List.drop_eq_nil_of_le (by simp only [List.length_cons]; omega))
      have hmod : ((x :: t).drop B).length % B ≠ 0 := by
        simp only [List.length_drop, List.length_cons]
        rw [List.length_cons] at hm
        rw [← Nat.mod_eq_sub_mod hBle]
        exact hm
      have hres := batchesGo_getLast B hB fuel ((x :: t).drop B) hlen hmod l (hr ▸ hl)
      rw [hres]
      simp only [List.length_drop, List.length_cons]
      exact (Nat.mod_eq_sub_mod hBle).symm

/-- C8: for batch size `B > 0`, the training controller partitions the
training pairs into `ceil(N/B)` consecutive batches (their concatenation is
the original list), every batch except possibly the last has size exactly
`B`, the last has size `N mod B` when `B` does not divide `N`, training runs
exactly the caller-supplied number of epochs (one validation metric is
recorded per epoch, with no early stopping), and with `N = 25000`, `B = 64`
each epoch processes 391 batches. -/
theorem fit_batching (step : Model → List (List ℕ × Bool) → Model)
    (m : Model) (xs valPairs : List (List ℕ × Bool)) (B e : ℕ) (hB : 0 < B) :
    (batches B xs).length = (xs.length + B - 1) / B ∧
    (batches B xs).flatten = xs ∧
    (∀ l ∈ (batches B xs).dropLast, l.length = B) ∧
    (xs.length % B ≠ 0 →
      ∀ l, (batches B xs).getLast? = some l → l.length = xs.length % B) ∧
    (fitWithVal step m xs valPairs B e).2.1.length = e ∧
    (batches 64 (List.replicate 25000 (([], false) : List ℕ × Bool))).length = 391 := by
  refine ⟨batchesGo_length B hB xs.length xs le_rfl,
    batchesGo_flatten B hB xs.length xs le_rfl,
    batchesGo_dropLast B hB xs.length xs le_rfl,
    batchesGo_getLast B hB xs.length xs le_rfl,
    fitWithVal_metrics_length step m xs valPairs B e, ?_⟩
  have h391 := batchesGo_length 64 (by norm_num)
    (List.replicate 25000 (([], false) : List ℕ × Bool)).length
    (List.replicate 25000 (([], false) : List ℕ × Bool)) le_rfl
  rw [List.length_replicate] at h391
  rw [batches, List.length_replicate, h391]

def trivialStep : Model → List (List ℕ × Bool) → Model := fun m _ => m

theorem fit_batching_witness :
    (0 : ℕ) < 2 ∧
    ((batches 2 [([3], true), ([4], false), ([5], true)]).length =
        (([([3], true), ([4], false), ([5], true)] : List (List ℕ × Bool)).length + 2 - 1) / 2 ∧
      (batches 2 [([3], true), ([4], false), ([5], true)]).flatten =
        [([3], true), ([4], false), ([5], true)] ∧
      (∀ l ∈ (batches 2 [([3], true), ([4], false), ([5], true)]).dropLast, l.length = 2) ∧
      (([([3], true), ([4], false), ([5], true)] : List (List ℕ × Bool)).length % 2 ≠ 0 →
        ∀ l, (batches 2 [([3], true), ([4], false), ([5], true)]).getLast? = some l →
          l.length =
            (([([3], true), ([4], false), ([5], true)] : List (List ℕ × Bool)).length % 2)) ∧
      (fitWithVal trivialStep model0 [([3], true), ([4], false), ([5], true)] [] 2 1).2.1.length
        = 1 ∧
      (batches 64 (List.replicate 25000 (([], false) : List ℕ × Bool))).length = 391) :=
  ⟨by decide, fit_batching trivialStep model0 [([3], true), ([4], false), ([5], true)] [] 2 1
    (by decide)⟩

/-- Modelled from the spec: the error raised when the dataset provider is
given a non-positive vocabulary cap. -/
inductive DataError where
  | nonPositiveVocabCap
deriving DecidableEq

/-- A raw token clamped to the vocabulary: ranks beyond the cap are zeroed
upstream (the padding/unknown sentinel). -/
def clampToken (K t : ℕ) : ℕ := if t < K then t else 0

/-- The raw corpus with every token rank outside `[0, K)` zeroed. -/
def prepCorpus (K : ℕ) (corpus : List (List ℕ × Bool)) : List (List ℕ × Bool) :=
  corpus.map fun p => (p.1.map (clampToken K), p.2)

/-- The train partition: the first half of the prepared corpus. -/
def trainSplit (K : ℕ) (corpus : List (List ℕ × Bool)) : List (List ℕ × Bool) :=
  (prepCorpus K corpus).take (corpus.length / 2)

/-- The test partition: the second half of the prepared corpus, of the same
cardinality as the train partition. -/
def testSplit (K : ℕ) (corpus : List (List ℕ × Bool)) : List (List ℕ × Bool) :=
  ((prepCorpus K corpus).drop (corpus.length / 2)).take (corpus.length / 2)

/-- Modelled from the spec: `imdb.load_data(nb_words=K)`, the dataset
provider.  Given a positive vocabulary cap `K`, it returns two equal-sized
partitions of (sequence, label) pairs whose token ranks all lie in `[0, K)`
and whose labels are binary; it fails for a non-positive cap. -/
def load_data (K : ℕ) (corpus : List (List ℕ × Bool)) :
    Except DataError (List (List ℕ × Bool) × List (List ℕ × Bool)) :=
  if K = 0 then .error .nonPositiveVocabCap
  else .ok (trainSplit K corpus, testSplit K corpus)

/-- The label of a pair as the binary indicator the spec describes. -/
def labelNat (b : Bool) : ℕ := if b then 1 else 0

lemma mem_prepCorpus_token_lt (K : ℕ) (hK : 0 < K) (corpus : List (List ℕ × Bool))
    (p : List ℕ × Bool) (hp : p ∈ prepCorpus K corpus) : ∀ t ∈ p.1, t < K := by
  intro t ht
  obtain ⟨q, _, rfl⟩ := List.mem_map.mp hp
  obtain ⟨u, _, rfl⟩ := List.mem_map.mp ht
  unfold clampToken
  split
  · assumption
  · exact hK

/-- C9: for every positive vocabulary cap `K`, the dataset provider returns
two equal-sized partitions of (sequence, label) pairs with every token rank
in `[0, K)` and every label in `{0, 1}`; and it fails for the non-positive
cap. -/
theorem load_data_partition_contract (K : ℕ) (corpus : List (List ℕ × Bool))
    (hK : 0 < K) :
    load_data K corpus = .ok (trainSplit K corpus, testSplit K corpus) ∧
    (trainSplit K corpus).length = (testSplit K corpus).length ∧
    (∀ p ∈ trainSplit K corpus, (∀ t ∈ p.1, t < K) ∧
      (labelNat p.2 = 0 ∨ labelNat p.2 = 1)) ∧
    (∀ p ∈ testSplit K corpus, (∀ t ∈ p.1, t < K) ∧
      (labelNat p.2 = 0 ∨ labelNat p.2 = 1)) ∧
    ∀ c : List (List ℕ × Bool), load_data 0 c = .error .nonPositiveVocabCap := by
  refine ⟨by simp [load_data, Nat.pos_iff_ne_zero.mp hK], ?_, ?_, ?_, fun c => by simp [load_data]⟩
  · simp only [trainSplit, testSplit, List.length_take, List.length_drop, prepCorpus,
      List.length_map]
    omega
  · intro p hp
    refine ⟨mem_prepCorpus_token_lt K hK corpus p (List.mem_of_mem_take hp), ?_⟩
    cases p.2 <;> simp [labelNat]
  · intro p hp
    refine ⟨mem_prepCorpus_token_lt K hK corpus p
      (List.mem_of_mem_drop (List.mem_of_mem_take hp)), ?_⟩
    cases p.2 <;> simp [labelNat]

theorem load_data_partition_contract_witness :
    (0 : ℕ) < 5000 ∧
    (load_data 5000 [([1, 9999], true), ([3], false)] =
        .ok (trainSplit 5000 [([1, 9999], true), ([3], false)],
          testSplit 5000 [([1, 9999], true), ([3], false)]) ∧
      (trainSplit 5000 [([1, 9999], true), ([3], false)]).length =
        (testSplit 5000 [([1, 9999], true), ([3], false)]).length ∧
      (∀ p ∈ trainSplit 5000 [([1, 9999], true), ([3], false)], (∀ t ∈ p.1, t < 5000) ∧
        (labelNat p.2 = 0 ∨ labelNat p.2 = 1)) ∧
      (∀ p ∈ testSplit 5000 [([1, 9999], true), ([3], false)], (∀ t ∈ p.1, t < 5000) ∧
        (labelNat p.2 = 0 ∨ labelNat p.2 = 1)) ∧
      ∀ c : List (List ℕ × Bool), load_data 0 c = .error .nonPositiveVocabCap) :=
  ⟨by decide, load_data_partition_contract 5000 [([1, 9999], true), ([3], false)] (by decide)⟩

/-- The notebook's vocabulary cap: `top_words = 5000`. -/
def top_words : ℕ := 5000

/-- The notebook's fixed sequence length: `max_review_length = 500`. -/
def max_review_length : ℕ := 500

/-- The notebook's preprocessing step: `sequence.pad_sequences(X, maxlen=500)`
applied to every review of a partition, labels untouched. -/
def preprocess (pairs : List (List ℕ × Bool)) : List (List ℕ × Bool) :=
  pairs.map fun p => (pad_sequences max_review_length p.1, p.2)

/-- The observable outcome of the notebook's run: the validation data the
training call received, the per-epoch validation metrics it reported, the
data the final `evaluate` call received, and the final accuracy. -/
structure PipelineResult where
  validationData : List (List ℕ × Bool)
  valMetrics : List ℚ
  evaluationData : List (List ℕ × Bool)
  accuracy : ℚ
deriving DecidableEq

/-- The notebook's first script as written: load the dataset with
`top_words`, pad both partitions to `max_review_length`, call
`model.fit(X_train, y_train, validation_data=(X_test, y_test), epochs=2,
batch_size=64)`, then `model.evaluate(X_test, y_test)` — the same `X_test`
object is passed as validation data and as the final evaluation data. -/
def pipeline (step : Model → List (List ℕ × Bool) → Model) (m : Model)
    (corpus : List (List ℕ × Bool)) : Except DataError PipelineResult :=
  (load_data top_words corpus).map fun d =>
    let X_train := preprocess d.1
    let X_test := preprocess d.2
    let fitted := fitWithVal step m X_train X_test 64 2
    ⟨fitted.2.2, fitted.2.1, X_test, ((fitted.1.evaluate X_test).1)⟩

lemma fitWithVal_last_metric (step : Model → List (List ℕ × Bool) → Model)
    (m : Model) (pairs valPairs : List (List ℕ × Bool)) (B e : ℕ) :
    (fitWithVal step m pairs valPairs B (e + 1)).2.1.getLast? =
      some (((fitWithVal step m pairs valPairs B (e + 1)).1.evaluate valPairs).1) := by
  simp [fitWithVal]

/-- C10: in the pipeline as written, the validation data held by the training
call is the very test partition later passed to `evaluate`, so the per-epoch
validation accuracy reported during training and the final evaluation
accuracy are computed over the same (test) data; in particular the
validation metric of the last epoch equals the final reported accuracy. -/
theorem pipeline_validation_is_test (step : Model → List (List ℕ × Bool) → Model)
    (m : Model) (corpus : List (List ℕ × Bool)) (r : PipelineResult)
    (h : pipeline step m corpus = .ok r) :
    r.validationData = r.evaluationData ∧
    r.valMetrics.getLast? = some r.accuracy := by
  have hld : load_data top_words corpus =
      .ok (trainSplit top_words corpus, testSplit top_words corpus) := by
    simp [load_data, top_words]
  rw [pipeline, hld] at h
  simp only [Except.map, Except.ok.injEq] at h
  subst h
  constructor
  · show (fitWithVal step m (preprocess (trainSplit top_words corpus))
        (preprocess (testSplit top_words corpus)) 64 2).2.2 =
      preprocess (testSplit top_words corpus)
    exact fitWithVal_val_unchanged step m _ _ 64 2
  · show (fitWithVal step m (preprocess (trainSplit top_words corpus))
        (preprocess (testSplit top_words corpus)) 64 2).2.1.getLast? =
      some (((fitWithVal step m (preprocess (trainSplit top_words corpus))
        (preprocess (testSplit top_words corpus)) 64 2).1.evaluate
          (preprocess (testSplit top_words corpus))).1)
    exact fitWithVal_last_metric step m _ _ 64 1

instance {ε α : Type} [DecidableEq ε] [DecidableEq α] : DecidableEq (Except ε α) := fun x y =>
  match x, y with
  | .error a, .error b =>
    if h : a = b then isTrue (h ▸ rfl) else isFalse fun hc => h (Except.error.inj hc)
  | .ok a, .ok b =>
    if h : a = b then isTrue (h ▸ rfl) else isFalse fun hc => h (Except.ok.inj hc)
  | .error _, .ok _ => isFalse fun hc => Except.noConfusion hc
  | .ok _, .error _ => isFalse fun hc => Except.noConfusion hc

def pipelineResult0 : PipelineResult := ⟨[], [0, 0], [], 0⟩

theorem pipeline_validation_is_test_witness :
    pipeline trivialStep model0 [] = .ok pipelineResult0 ∧
    (pipelineResult0.validationData = pipelineResult0.evaluationData ∧
      pipelineResult0.valMetrics.getLast? = some pipelineResult0.accuracy) :=
  ⟨by simp [pipeline, load_data, top_words, trainSplit, testSplit, prepCorpus, preprocess,
      fitWithVal, runBatches, batches, batchesGo, Model.evaluate, pipelineResult0, Except.map,
      trivialStep, model0],
    pipeline_validation_is_test trivialStep model0 [] pipelineResult0
      (by simp [pipeline, load_data, top_words, trainSplit, testSplit, prepCorpus, preprocess,
        fitWithVal, runBatches, batches, batchesGo, Model.evaluate, pipelineResult0, Except.map,
        trivialStep, model0])⟩
